import Mathlib

set_option linter.unusedVariables false

attribute [local semireducible] Rat.mul Rat.add Rat.sub Rat.inv

/-!
# Verification of the gmail_auto reconciliation pipeline

Shallow embedding of the matching / deduplication / idempotent-write pipeline
of the repository (entry point `main.py`; library modules under `src/`),
together with proofs settling the frozen specification claims.

Modelling conventions, used throughout:

* A parsed record and a persisted spreadsheet row are both flat string-keyed
  mappings of string values; they are embedded as association lists
  `List (String × String)` (`Row`).
* `hashlib.md5(json.dumps(d, sort_keys=True).encode()).hexdigest()` is a
  content fingerprint of the canonicalized mapping.  It is embedded as the
  canonical serialization itself (keys sorted, `key:value` pairs joined) —
  an injective stand-in for the MD5 digest; the code relies on the digest
  behaving injectively and never inspects its text.
* Attachment byte strings are embedded as `String`; the MD5 of raw bytes is
  likewise embedded as the content itself (`contentHash`).
* Remote-backend outcomes (Google Drive uploads, file-existence queries,
  document downloads) are inputs to the model: an oracle list of outcomes for
  upload calls, and an `Except`/`Option` value for a document fetch, so that
  backend failure paths of the code are represented faithfully.
* Python exceptions are embedded with `Except String`; a `try/except` block
  that converts exceptions into a `None` result is embedded by the
  corresponding total function.
-/

/-- A flat record / spreadsheet row: association list of field name to value
(`dict[str, str]` in the source). -/
abbrev Row := List (String × String)

/-- Lexicographic comparison of character lists by code point (the string
order Python's `sorted()` uses on `str` keys; defined over character lists
so that it reduces inside the kernel). -/
def leCL : List Char → List Char → Bool
  | [], _ => true
  | _ :: _, [] => false
  | a :: as, b :: bs => if a == b then leCL as bs else decide (a.toNat < b.toNat)

/-- String order by code points (`s ≤ t` for sorting dict keys). -/
def strLe (s t : String) : Bool := leCL s.toList t.toList

/-- Insert one key/value pair into a key-sorted association list
(insertion step of the key sort used for canonical serialization). -/
def insertByKey (p : String × String) : Row → Row
  | [] => [p]
  | q :: t => if strLe p.1 q.1 then p :: q :: t else q :: insertByKey p t

/-- Sort an association list by key: embeds `json.dumps(..., sort_keys=True)`
putting the keys of a dict in sorted order. -/
def sortByKey (r : Row) : Row := r.foldr insertByKey []

/-- Serialize a row into a single string, `key:value` pairs joined by commas.
Composed with `sortByKey` this is the canonical form whose MD5 the code
takes; the serialization itself stands in for the digest. -/
def serializeRow (r : Row) : String :=
  String.intercalate "," (r.map (fun kv => kv.1 ++ ":" ++ kv.2))

/-- Python's `str.strip()`: drop leading and trailing whitespace.  (Defined
over the character list so that it reduces inside the kernel.) -/
def pyStrip (s : String) : String :=
  String.mk
    (((s.toList.dropWhile Char.isWhitespace).reverse.dropWhile
        Char.isWhitespace).reverse)

/-- Identity hash of a record for `processed_records` dedup in
`main.py`/`google_process.py`:
`md5(json.dumps(record, sort_keys=True).encode()).hexdigest()`
over all fields. -/
def recordIdHash (r : Row) : String := serializeRow (sortByKey r)

/-- Per-row identity hash used by `drive_sheet_manager` and
`is_record_unique_in_sheet` (`src/drive_uploader.py`): the hash of the
row with any `attach_path` field removed, keys sorted. -/
def rowIdHash (r : Row) : String :=
  serializeRow (sortByKey (r.filter (fun kv => kv.1 ≠ "attach_path")))

/-- `drive_sheet_manager`: filter the incoming records down to those whose
identity hash is not yet in `seen`, inserting each kept record's hash into
`seen` as the loop goes (so intra-batch duplicates are dropped too).
Embeds the `for record in records` filtering loop at
`src/drive_uploader.py:231-237`. -/
def filterUniqueAux (seen : List String) : List Row → List Row
  | [] => []
  | r :: rest =>
    if rowIdHash r ∈ seen then filterUniqueAux seen rest
    else r :: filterUniqueAux (rowIdHash r :: seen) rest

/-- Column set of a collection of rows, first-seen order: the union of the
rows' key sets.  Embeds the column set a `pandas.DataFrame` built from (or
reindexed over) these rows carries. -/
def colsOf (rows : List Row) : List String :=
  rows.foldl (fun acc r => acc ++ (r.map Prod.fst).filter (fun k => !acc.contains k)) []

/-- Reindex one row over a column list: every column present keeps its value,
missing columns are filled with the empty string.  Embeds
`df.reindex(columns=all_cols).fillna("")` (and the `NaN`-to-empty round trip
through `to_excel`/`read_excel`) on a single row. -/
def reindex (cols : List String) (r : Row) : Row :=
  cols.map (fun c => (c, ((r.lookup c).getD "")))

/-- `drive_sheet_manager(sheet_name, folder_id, records, append)` of
`src/drive_uploader.py:178-266`, error-free backend, at the level of the
named document's stored row set.  `doc` is the document's current row list
(`none` = no such document).  Mirrors the source:
* empty `records`: ensure the document exists (created empty) and return;
* otherwise hash the existing rows (columns minus `attach_path`), filter the
  batch by `filterUniqueAux`, and if anything is left append it after
  reindexing every row over the union of the columns of both sides
  (`all_cols = list(set(df_existing.columns) | set(df_new.columns))`,
  missing entries filled with `""`); when the existing frame is empty the
  written frame is `pd.DataFrame(unique_records)`, whose columns are the
  union of the batch rows' keys — the same reindexing with no existing rows.
* if nothing is left after filtering, the stored rows are unchanged. -/
def drive_sheet_manager (doc : Option (List Row)) (records : List Row) :
    Option (List Row) :=
  if records.isEmpty then some (doc.getD [])
  else
    let dfExisting := doc.getD []
    let uniq := filterUniqueAux (dfExisting.map rowIdHash) records
    if uniq.isEmpty then doc
    else
      let allRows := dfExisting ++ uniq
      some (allRows.map (reindex (colsOf allRows)))

/-- `is_record_unique_in_sheet(sheet_name, folder_id, record)` of
`src/drive_uploader.py:286-336`.  `fetch` is the outcome of resolving and
downloading the sheet: `.error` = the backend raised during the check,
`.ok none` = no such sheet, `.ok (some rows)` = downloaded row set (an
unreadable sheet downloads as `some []`, the empty frame).  The input
validations raise `ValueError` (embedded as `.error`); every backend
failure inside the `try` returns `True`. -/
def is_record_unique_in_sheet (fetch : Except String (Option (List Row)))
    (sheet_name folder_id : String) (record : Row) : Except String Bool :=
  if pyStrip sheet_name = "" then .error "ValueError: Invalid sheet_name"
  else if pyStrip folder_id = "" then .error "ValueError: Invalid folder_id"
  else if record.isEmpty then .error "ValueError: Invalid record"
  else .ok (match fetch with
    | .error _ => true
    | .ok none => true
    | .ok (some rows) =>
      if rows.isEmpty then true
      else decide (rowIdHash record ∉ rows.map rowIdHash))

/-! ## Attachment uploader, `main.py` revision -/

/-- MD5 of raw attachment bytes (`hashlib.md5(content).hexdigest()` at
`main.py:72`), embedded as the byte string itself — an injective stand-in
for the digest. -/
def contentHash (content : String) : String := content

/-- State threaded through the `main.py` uploader: the process-wide
`uploaded_file_hashes` ledger (`main.py:56`), the backend oracle giving the
outcome of each successive `upload_to_drive` call (`none` = the Drive call
failed and `upload_to_drive`, which catches every exception, returned
`None`; `some id` = stored with that id), a count of Drive calls attempted,
and the contents successfully stored as blobs. -/
structure MainUpSt where
  uploaded_file_hashes : List String
  oracle : List (Option String)
  attempts : Nat
  blobs : List String
deriving DecidableEq

/-- `upload_to_drive(file, folder_id)` of `src/drive_uploader.py:84-107` as
called from `main.py`: one backend attempt, outcome drawn from the oracle
(an exhausted oracle means the backend errored; the function catches every
exception and returns `None`).  On success the uploaded content is stored. -/
def upload_to_drive (st : MainUpSt) (content : String) : Option String × MainUpSt :=
  match st.oracle with
  | [] => (none, { st with attempts := st.attempts + 1 })
  | o :: rest =>
    match o with
    | none => (none, { st with oracle := rest, attempts := st.attempts + 1 })
    | some fid =>
      (some fid, { st with oracle := rest, attempts := st.attempts + 1,
                           blobs := content :: st.blobs })

/-- `upload_unique_file(content, save_name, folder_id)` of `main.py:70-87`:
hash the content; if the hash is already in the ledger return `None`
without touching the backend; otherwise insert the hash into the ledger
first, then attempt the upload and return its result.  The whole body is
wrapped in `try/except` returning `None`, so the function is total. -/
def upload_unique_file (st : MainUpSt) (content save_name folder_id : String) :
    Option String × MainUpSt :=
  let h := contentHash content
  if h ∈ st.uploaded_file_hashes then (none, st)
  else
    upload_to_drive { st with uploaded_file_hashes := h :: st.uploaded_file_hashes }
      content

/-- A sequence of further `upload_unique_file` calls in the same run, each a
`(content, save_name, folder_id)` triple. -/
def runUploads (st : MainUpSt) : List (String × String × String) → MainUpSt
  | [] => st
  | (c, n, f) :: rest => runUploads (upload_unique_file st c n f).2 rest

/-! ## Attachment uploader, `google_process.py` revision -/

/-- `sanitize_filename(name)` of `src/drive_uploader.py:59-72`: replace each
character of `<>:"/\|?*` with an underscore, then strip surrounding
whitespace (`pyStrip`).  (The source raises if the result is empty; callers below model
that branch explicitly.) -/
def sanitize_filename (name : String) : String :=
  pyStrip (String.mk (name.toList.map (fun c =>
    if ['<', '>', ':', '"', '/', '\\', '|', '?', '*'].contains c then '_' else c)))

/-- State threaded through the `google_process.py` uploader: the set of
`(folder_id, filename)` pairs present in Drive (queried by
`file_exists_in_drive`), the backend oracle for `upload_to_drive` calls,
the attempt count, and the `(name, content)` blobs stored. -/
structure GpUpSt where
  driveNames : List (String × String)
  oracle : List (Option String)
  attempts : Nat
  blobs : List (String × String)
deriving DecidableEq

/-- `upload_unique_file(content, save_name, folder_id)` of
`src/google_process.py:47-71`.  The three input validations raise
`ValueError` before the `try` block (and a `ValueError` caught inside it is
deliberately re-raised), embedded as `.error`.  Inside the `try`: sanitize
the name (an empty sanitization raises and is caught by the generic
`except`, producing `None`); skip with `None` if a file of that name exists
in the folder; otherwise attempt the upload — a backend failure is caught
and produces `None`.  Deduplication is by sanitized *filename*, not by
content. -/
def gp_upload_unique_file (st : GpUpSt) (content save_name folder_id : String) :
    Except String (Option String × GpUpSt) :=
  if content = "" then .error "ValueError: File content must be non-empty bytes."
  else if pyStrip save_name = "" then .error "ValueError: Invalid save_name"
  else if pyStrip folder_id = "" then .error "ValueError: Invalid folder_id"
  else
    let name := sanitize_filename save_name
    if name = "" then .ok (none, st)
    else if (folder_id, name) ∈ st.driveNames then .ok (none, st)
    else
      match st.oracle with
      | [] => .ok (none, { st with attempts := st.attempts + 1 })
      | o :: rest =>
        match o with
        | none => .ok (none, { st with oracle := rest, attempts := st.attempts + 1 })
        | some fid =>
          .ok (some fid,
            { st with oracle := rest, attempts := st.attempts + 1,
                      driveNames := (folder_id, name) :: st.driveNames,
                      blobs := (name, content) :: st.blobs })

/-- `Except.isOk` as a plain definition. -/
def exceptIsOk : Except String (Option String × GpUpSt) → Bool
  | .ok _ => true
  | .error _ => false

/-! ## Email data model -/

/-- One email attachment: filename plus raw bytes (`src/email_client.py`). -/
structure Att where
  filename : String
  content : String
deriving DecidableEq

/-- One normalized email record as produced by `fetch_financial_emails`
(`src/email_client.py:62-70`): content hash, sender identity, subject, body,
date string, ordered attachments. -/
structure EmailRec where
  hash : String
  sender_name : String := ""
  sender_email : String := ""
  subject : String := ""
  body : String := ""
  date : String := ""
  attachments : List Att := []
deriving DecidableEq

/-! ## TF-IDF matcher (`src/email_model.py`, `src/matcher.py`)

`EmailMatcherModel` wraps `sklearn.feature_extraction.text.TfidfVectorizer`
with its defaults (`stop_words='english'`, lowercase, token pattern
`\w\w+`, smooth l2-normalized tf-idf) plus
`sklearn.metrics.pairwise.cosine_similarity`.

Two representation choices keep the embedding exact over `ℚ`:

* Cosine similarities are represented by their *squares*
  (`dot² / (‖q‖²·‖d‖²)`): all tf-idf entries are nonnegative, so cosines
  are nonnegative and squaring is order- and equality-preserving; every
  comparison `score ⋈ c` of the source appears here as `score² ⋈ c²`.
  A zero vector (sklearn normalizes zero-norm rows to zero) makes the
  denominator 0 and the numerator 0, and `ℚ` division by zero is 0 — the
  same similarity sklearn yields.
* The smooth idf weight `idf(n, df) = ln((1+n)/(1+df)) + 1` is irrational
  in general, so it is a parameter `idfFn : ℕ → ℕ → ℚ` of the model.
  Whenever `n = df` — in particular for every term of a single-document
  corpus — the true value is exactly `ln 1 + 1 = 1`; theorems about
  concrete single-document corpora assume only `idfFn 1 1 = 1`, and
  `idfUnit` is that exact instantiation. -/

/-- The 318 entries of `sklearn.feature_extraction.text.ENGLISH_STOP_WORDS`
(the fixed "english" stop word list the vectorizer is constructed with). -/
def sklearnStopWords : List String :=
  ["a", "about", "above", "across", "after", "afterwards", "again", "against",
   "all", "almost", "alone", "along", "already", "also", "although", "always",
   "am", "among", "amongst", "amoungst", "amount", "an", "and", "another",
   "any", "anyhow", "anyone", "anything", "anyway", "anywhere", "are",
   "around", "as", "at", "back", "be", "became", "because", "become",
   "becomes", "becoming", "been", "before", "beforehand", "behind", "being",
   "below", "beside", "besides", "between", "beyond", "bill", "both",
   "bottom", "but", "by", "call", "can", "cannot", "cant", "co", "con",
   "could", "couldnt", "cry", "de", "describe", "detail", "do", "done",
   "down", "due", "during", "each", "eg", "eight", "either", "eleven",
   "else", "elsewhere", "empty", "enough", "etc", "even", "ever", "every",
   "everyone", "everything", "everywhere", "except", "few", "fifteen",
   "fifty", "fill", "find", "fire", "first", "five", "for", "former",
   "formerly", "forty", "found", "four", "from", "front", "full", "further",
   "get", "give", "go", "had", "has", "hasnt", "have", "he", "hence", "her",
   "here", "hereafter", "hereby", "herein", "hereupon", "hers", "herself",
   "him", "himself", "his", "how", "however", "hundred", "i", "ie", "if",
   "in", "inc", "indeed", "interest", "into", "is", "it", "its", "itself",
   "keep", "last", "latter", "latterly", "least", "less", "ltd", "made",
   "many", "may", "me", "meanwhile", "might", "mill", "mine", "more",
   "moreover", "most", "mostly", "move", "much", "must", "my", "myself",
   "name", "namely", "neither", "never", "nevertheless", "next", "nine",
   "no", "nobody", "none", "noone", "nor", "not", "nothing", "now",
   "nowhere", "of", "off", "often", "on", "once", "one", "only", "onto",
   "or", "other", "others", "otherwise", "our", "ours", "ourselves", "out",
   "over", "own", "part", "per", "perhaps", "please", "put", "rather", "re",
   "same", "see", "seem", "seemed", "seeming", "seems", "serious", "several",
   "she", "should", "show", "side", "since", "sincere", "six", "sixty",
   "so", "some", "somehow", "someone", "something", "sometime", "sometimes",
   "somewhere", "still", "such", "system", "take", "ten", "than", "that",
   "the", "their", "them", "themselves", "then", "thence", "there",
   "thereafter", "thereby", "therefore", "therein", "thereupon", "these",
   "they", "thick", "thin", "third", "this", "those", "though", "three",
   "through", "throughout", "thru", "thus", "to", "together", "too", "top",
   "toward", "towards", "twelve", "twenty", "two", "un", "under", "until",
   "up", "upon", "us", "very", "via", "was", "we", "well", "were", "what",
   "whatever", "when", "whence", "whenever", "where", "whereafter",
   "whereas", "whereby", "wherein", "whereupon", "wherever", "whether",
   "which", "while", "whither", "who", "whoever", "whole", "whom", "whose",
   "why", "will", "with", "within", "without", "would", "yet", "you",
   "your", "yours", "yourself", "yourselves"]

/-- A word character of the vectorizer's token pattern `(?u)\b\w\w+\b`:
letter, digit or underscore. -/
def isWordChar (c : Char) : Bool := c.isAlphanum || c == '_'

/-- Split a lowercased character list into maximal word-character runs
(`cur` is the current run, reversed). -/
def tokensAux : List Char → List Char → List String
  | [], cur => if cur.isEmpty then [] else [String.mk cur.reverse]
  | c :: rest, cur =>
    if isWordChar c then tokensAux rest (c :: cur)
    else if cur.isEmpty then tokensAux rest []
    else String.mk cur.reverse :: tokensAux rest []

/-- The vectorizer's analyzer: lowercase, extract `\w\w+` tokens (maximal
word-character runs of length at least 2), drop English stop words.
(Lowercasing is done on the character list so that the definition reduces
inside the kernel.) -/
def tokenize (s : String) : List String :=
  (tokensAux (s.toList.map Char.toLower) []).filter
    (fun t => 2 ≤ t.length && !sklearnStopWords.contains t)

/-- Document text for one email during training:
`f"{e.get('subject','')} {e.get('body','')}"` (`src/email_model.py:58`),
tokenized. -/
def docTokens (e : EmailRec) : List String := tokenize (e.subject ++ " " ++ e.body)

/-- Keep the first occurrence of every token (`seen` accumulates). -/
def dedupFirstAux (seen : List String) : List String → List String
  | [] => []
  | x :: rest =>
    if seen.contains x then dedupFirstAux seen rest
    else x :: dedupFirstAux (x :: seen) rest

/-- The fitted vocabulary: every distinct token occurring in the training
documents (order is immaterial to the similarity sums below). -/
def buildVocab (docs : List (List String)) : List String :=
  dedupFirstAux [] (docs.foldr (· ++ ·) [])

/-- The fitted state of the vectorizer: vocabulary plus the token lists of
the training documents (from which tf, df and the matrix rows derive). -/
structure FittedTfidf where
  vocab : List String
  docsTokens : List (List String)
deriving DecidableEq

/-- Document frequency of a term across the training documents. -/
def dfCount (docs : List (List String)) (t : String) : ℕ :=
  (docs.filter (fun d => d.contains t)).length

/-- Un-normalized tf-idf weight of term `t` for a token list:
term count times `idfFn n df`. -/
def tfidfWeight (idfFn : ℕ → ℕ → ℚ) (docs : List (List String))
    (toks : List String) (t : String) : ℚ :=
  (toks.count t : ℚ) * idfFn docs.length (dfCount docs t)

/-- Squared cosine similarity of the tf-idf vectors of two token lists over
the fitted vocabulary (see the representation note above). -/
def simSq (idfFn : ℕ → ℕ → ℚ) (f : FittedTfidf) (q d : List String) : ℚ :=
  let w := tfidfWeight idfFn f.docsTokens
  ((f.vocab.map (fun t => w q t * w d t)).sum) ^ 2 /
    (((f.vocab.map (fun t => (w q t) ^ 2)).sum) *
     ((f.vocab.map (fun t => (w d t) ^ 2)).sum))

/-- Index of the first maximum (`numpy.argmax` tie behavior): `i`/`bv`/`best`
are the next index, best value and best index so far. -/
def argmaxAux : List ℚ → ℕ → ℚ → ℕ → ℕ
  | [], _, _, best => best
  | x :: rest, i, bv, best =>
    if bv < x then argmaxAux rest (i + 1) x i else argmaxAux rest (i + 1) bv best

/-- `sims.argmax()` — first index attaining the maximum; 0 on `[]` (the
source never reaches that case: `numpy` would raise and the `except`
return `(None, 0.0)`, and `matchEmail` guards the empty case explicitly). -/
def argmaxIdx : List ℚ → ℕ
  | [] => 0
  | x :: rest => argmaxAux rest 1 x 0

/-- `EmailMatcherModel` state (`src/email_model.py:39-42`): the trained email
list and the fitted vectorizer+matrix (`None` until trained). -/
structure EmailMatcherModel where
  emails : List EmailRec
  tfidf_matrix : Option FittedTfidf
deriving DecidableEq

/-- A freshly constructed `EmailMatcherModel()`. -/
def EmailMatcherModel.init : EmailMatcherModel := ⟨[], none⟩

/-- `EmailMatcherModel.train(emails)` (`src/email_model.py:52-62`): no-op on
an empty corpus; otherwise `self.emails = emails` is assigned and the
vectorizer fitted — when every document tokenizes to nothing sklearn raises
"empty vocabulary", the `except` swallows it, and `tfidf_matrix` keeps its
previous value while `emails` has already been reassigned. -/
def EmailMatcherModel.train (m : EmailMatcherModel) (emails : List EmailRec) :
    EmailMatcherModel :=
  if emails.isEmpty then m
  else
    let docs := emails.map docTokens
    let v := buildVocab docs
    if v.isEmpty then { m with emails := emails }
    else { emails := emails, tfidf_matrix := some ⟨v, docs⟩ }

/-- `EmailMatcherModel.match(merchant, amount, threshold)`
(`src/email_model.py:74-86`; named `matchEmail` here because `match` is a
Lean keyword).  Untrained model: `(None, 0.0)`.  Otherwise embed the query
`f"{merchant} {amount}"`, take cosine similarity against every trained
document, pick the first argmax, and return `(self.emails[idx], score)`
when `score >= threshold` else `(None, score)`; an out-of-range index (a
corrupted state) raises and the `except` returns `(None, 0.0)`.  Scores are
squared cosines, so the threshold comparison is against `threshold²`. -/
def EmailMatcherModel.matchEmail (idfFn : ℕ → ℕ → ℚ) (m : EmailMatcherModel)
    (merchant amount : String) (threshold : ℚ) : Option EmailRec × ℚ :=
  match m.tfidf_matrix with
  | none => (none, 0)
  | some f =>
    if f.docsTokens.isEmpty then (none, 0)
    else
      let q := tokenize (merchant ++ " " ++ amount)
      let sims := f.docsTokens.map (fun d => simSq idfFn f q d)
      let idx := argmaxIdx sims
      let score := sims.getD idx 0
      if threshold * threshold ≤ score then
        match m.emails.get? idx with
        | some e => (some e, score)
        | none => (none, 0)
      else (none, score)

/-- The class-level singleton state of `Matcher` (`src/matcher.py:26-28`)
plus the persisted `email_ai_model.pkl` file: `model` is `Matcher._model`,
`diskModel` the pickled model on disk (`none` = file absent). -/
structure MatcherState where
  model : Option EmailMatcherModel
  diskModel : Option EmailMatcherModel
deriving DecidableEq

/-- The process-start matcher state: no singleton, no pickle file. -/
def MatcherState.fresh : MatcherState := ⟨none, none⟩

/-- Resolution of the `Matcher` singleton (`src/matcher.py:69-76`): the
in-memory `_model` if set, else the model loaded from the pickle file,
else a freshly constructed `EmailMatcherModel()`. -/
def Matcher.resolveModel (st : MatcherState) : EmailMatcherModel :=
  match st.model with
  | some m => m
  | none =>
    match st.diskModel with
    | some m => m
    | none => EmailMatcherModel.init

/-- The training condition of `src/matcher.py:77`:
`getattr(model, 'tfidf_matrix', None) is None and emails`. -/
def Matcher.needsTraining (st : MatcherState) (emails : List EmailRec) : Bool :=
  (Matcher.resolveModel st).tfidf_matrix.isNone && !emails.isEmpty

/-- The model the call matches with: trained lazily on the passed corpus
when untrained and the corpus is non-empty (`src/matcher.py:77-80`),
otherwise the resolved singleton as is. -/
def Matcher.trainedModel (st : MatcherState) (emails : List EmailRec) :
    EmailMatcherModel :=
  if Matcher.needsTraining st emails then (Matcher.resolveModel st).train emails
  else Matcher.resolveModel st

/-- `Matcher.match_record_email(record, emails, threshold=0.5)`
(`src/matcher.py:66-86`), state-passing.  Resolve the singleton
(`resolveModel`), train-and-persist lazily (`trainedModel`; the trained
model is saved to the pickle file), then match
`str(record.get('merchant',''))` and `str(record.get('amount',''))` with
the model.  Returns the `(email, score)` pair and the mutated
singleton/disk state. -/
def Matcher.match_record_email (idfFn : ℕ → ℕ → ℚ) (st : MatcherState)
    (record : Row) (emails : List EmailRec) (threshold : ℚ) :
    (Option EmailRec × ℚ) × MatcherState :=
  let m1 := Matcher.trainedModel st emails
  let disk1 := if Matcher.needsTraining st emails then some m1 else st.diskModel
  let merchant := (record.lookup "merchant").getD ""
  let amount := (record.lookup "amount").getD ""
  (m1.matchEmail idfFn merchant amount threshold, ⟨some m1, disk1⟩)

/-- The exact value of sklearn's smooth idf `ln((1+n)/(1+df)) + 1` whenever
`n = df`: `ln 1 + 1 = 1`.  Used to instantiate `idfFn` in closed theorems
about single-document corpora, where `n = df = 1` for every vocabulary
term. -/
def idfUnit : ℕ → ℕ → ℚ := fun _ _ => 1

/-! ## Orchestration ledger model (`main.py`)

The run is modelled at record granularity.  `main()` schedules one task per
statement file under `asyncio.Semaphore(5)`; the runtime is single-threaded
and cooperative, and in `process_file` (`main.py:109-134`) the ledger
transaction of one record — the membership checks on `processed_records`
and `processed_email_hashes` and the corresponding inserts (lines 113-120)
— contains no `await`, so it executes atomically; suspension points (the
attachment uploads, the sheet write) touch only the upload ledger.  Any
cooperative interleaving of the per-file tasks is therefore equivalent, as
far as the three ledgers and the per-file matched sets are concerned, to
some sequential schedule of `(file index, record)` steps, which is what
`runFiles` folds over.  `Matcher.match_record_email(record, emails)` is
called with the fixed fetched corpus and the singleton model state, which
no longer changes once trained, so it is abstracted as a function
`matchFn : Row → Option EmailRec × ℚ` of the record alone. -/

/-- The run-scoped ledger state of `main.py`: the `processed_records` and
`processed_email_hashes` sets (`main.py:55-57`) and the accumulated
`(file index, consumed email hash)` pairs — pair `(i, h)` means hash `h`
was added to file `i`'s `matched_email_hashes` set. -/
structure LedgerSt where
  processed_records : List String
  processed_email_hashes : List String
  matched : List (Nat × String)
deriving DecidableEq

/-- The ledgers at process start: empty. -/
def LedgerSt.init : LedgerSt := ⟨[], [], []⟩

/-- One record of file `fi` in `process_file` (`main.py:109-134`), ledger
view: skip if the record hash was processed; otherwise mark it, match, and
skip unless an email is returned with score `≥ 0.7` whose hash is
unconsumed; otherwise consume the email hash for file `fi`. -/
def processRecordStep (matchFn : Row → Option EmailRec × ℚ) (st : LedgerSt)
    (fi : Nat) (r : Row) : LedgerSt :=
  let rh := recordIdHash r
  if rh ∈ st.processed_records then st
  else
    let st1 := { st with processed_records := rh :: st.processed_records }
    match matchFn r with
    | (none, _) => st1
    | (some e, score) =>
      if score < 7/10 then st1
      else if e.hash ∈ st1.processed_email_hashes then st1
      else { st1 with
             processed_email_hashes := e.hash :: st1.processed_email_hashes,
             matched := (fi, e.hash) :: st1.matched }

/-- The joined file phase: fold the record steps of all files in schedule
order (any record-level interleaving of the per-file tasks). -/
def runFiles (matchFn : Row → Option EmailRec × ℚ) (st : LedgerSt) :
    List (Nat × Row) → LedgerSt
  | [] => st
  | (fi, r) :: rest => runFiles matchFn (processRecordStep matchFn st fi r) rest

/-- `process_unmatched_emails(emails, matched_email_hashes)`
(`main.py:159-196`), hash view: for each fetched email in order, skip it if
its hash is in the joined matched set or in `processed_email_hashes`;
otherwise mark it processed and write it to the unmatched document.
Returns the final ledger and the list of email hashes written unmatched. -/
def process_unmatched_emails (st : LedgerSt) (matched_email_hashes : List String) :
    List EmailRec → LedgerSt × List String
  | [] => (st, [])
  | e :: rest =>
    if e.hash ∈ matched_email_hashes ∨ e.hash ∈ st.processed_email_hashes then
      process_unmatched_emails st matched_email_hashes rest
    else
      let st1 := { st with processed_email_hashes := e.hash :: st.processed_email_hashes }
      ((process_unmatched_emails st1 matched_email_hashes rest).1,
       e.hash :: (process_unmatched_emails st1 matched_email_hashes rest).2)

/-- A full run of `main()` (`main.py:211-240`): all per-file tasks joined
(`asyncio.gather` then the union of the returned matched sets, here
`st.matched.map Prod.snd`), then the unmatched pass over the same fetched
corpus.  Returns the final ledger (whose `matched` field carries each file's
matched set) and the unmatched hash list. -/
def mainRun (matchFn : Row → Option EmailRec × ℚ) (schedule : List (Nat × Row))
    (emails : List EmailRec) : LedgerSt × List String :=
  let st := runFiles matchFn LedgerSt.init schedule
  process_unmatched_emails st (st.matched.map Prod.snd) emails

/-! ## `process_file` with rows, `main.py` and `google_process.py` revisions -/

/-- `pathlib.Path(name).suffix` for a bare filename: the part from the last
dot on, provided that dot is neither the first nor the last character;
otherwise the empty string. -/
def pathSuffix (name : String) : String :=
  let cs := name.toList
  let ext := cs.reverse.takeWhile (fun c => c ≠ '.')
  if ext.length = cs.length then ""
  else if ext.length = 0 then ""
  else if ext.length = cs.length - 1 then ""
  else "." ++ String.mk ext.reverse

/-- `Path(att["filename"]).suffix or ".bin"` (`main.py:123`,
`google_process.py:119`). -/
def extOrBin (filename : String) : String :=
  if pathSuffix filename = "" then ".bin" else pathSuffix filename

/-- Full state of the `main.py` pipeline: the two dedup ledgers plus the
uploader state. -/
structure MainPipeSt where
  processed_records : List String
  processed_email_hashes : List String
  up : MainUpSt
deriving DecidableEq

/-- The attachment loop of `process_file` in `main.py:121-127`: for each
attachment, in order, build the save name
`f"{email['sender_email']}_{email['hash']}_{idx}{ext}"` and call
`upload_unique_file`; a returned id contributes a Drive view link. -/
def mainAttachLoop (st : MainUpSt) (senderEmail ehash : String) :
    List Att → Nat → MainUpSt × List String
  | [], _ => (st, [])
  | a :: rest, idx =>
    let save := senderEmail ++ "_" ++ ehash ++ "_" ++ toString idx ++ extOrBin a.filename
    let (fid, st1) := upload_unique_file st a.content save "OTHER_EMAIL_FOLDER_ID"
    let (st2, paths) := mainAttachLoop st1 senderEmail ehash rest (idx + 1)
    (st2, (match fid with
      | some i => ("https://drive.google.com/file/d/" ++ i ++ "/view?usp=sharing") :: paths
      | none => paths))

/-- The record loop of `process_file` in `main.py:109-134`: dedup the record
hash, match, require an email with score `≥ 0.7` whose hash is not yet
consumed (`main.py:117` — an already-consumed email makes the record be
*skipped* with `continue`), consume it, upload its attachments, and append
one row.  Returns the final state, the `matched_records` rows, and the
file's `matched_email_hashes`. -/
def mainRecordLoop (matchFn : Row → Option EmailRec × ℚ) (st : MainPipeSt) :
    List Row → MainPipeSt × List Row × List String
  | [] => (st, [], [])
  | r :: rest =>
    let rh := recordIdHash r
    if rh ∈ st.processed_records then mainRecordLoop matchFn st rest
    else
      let st1 := { st with processed_records := rh :: st.processed_records }
      match matchFn r with
      | (none, _) => mainRecordLoop matchFn st1 rest
      | (some e, score) =>
        if score < 7/10 then mainRecordLoop matchFn st1 rest
        else if e.hash ∈ st1.processed_email_hashes then mainRecordLoop matchFn st1 rest
        else
          let st2 := { st1 with
            processed_email_hashes := e.hash :: st1.processed_email_hashes }
          let (up1, paths) := mainAttachLoop st2.up e.sender_email e.hash e.attachments 0
          let row : Row :=
            [("sender_name", e.sender_name),
             ("sender_email", e.sender_email),
             ("email_received_time", e.date),
             ("attach_file_or_image_path", String.intercalate ", " paths),
             ("email_link", "https://mail.google.com/mail/u/0/#search/rfc822msgid:" ++ e.hash)]
          let res := mainRecordLoop matchFn { st2 with up := up1 } rest
          (res.1, row :: res.2.1, e.hash :: res.2.2)

/-- `process_file(file_path, emails, semaphore)` of `main.py:100-147`, with
the matcher abstracted as `matchFn` (fixed fetched corpus and trained
model): returns state, the rows handed to `drive_sheet_manager` for this
file's sheet, and the matched-email-hash set returned to `main`. -/
def process_file (matchFn : Row → Option EmailRec × ℚ) (st : MainPipeSt)
    (records : List Row) : MainPipeSt × List Row × List String :=
  mainRecordLoop matchFn st records

/-- Sequential processing of several files' record lists by
`process_file`, collecting each file's row batch. -/
def mainRunFiles (matchFn : Row → Option EmailRec × ℚ) (st : MainPipeSt) :
    List (List Row) → MainPipeSt × List (List Row)
  | [] => (st, [])
  | f :: rest =>
    let res := process_file matchFn st f
    let res2 := mainRunFiles matchFn res.1 rest
    (res2.1, res.2.1 :: res2.2)

/-- Full state of the `google_process.py` pipeline: its `processed_records`
and `processed_email_hashes` sets, the `email_attachments_cache`
(`google_process.py:36`), and its uploader state. -/
structure GpPipeSt where
  processed_records : List String
  processed_email_hashes : List String
  email_attachments_cache : List (String × List String)
  up : GpUpSt
deriving DecidableEq

/-- The attachment loop of `google_process.py:118-123`: save name
`f"{email['sender_email']}_{email_hash[:8]}_{idx}{ext}"`, uploads through
`gp_upload_unique_file`.  A raised `ValueError` escapes the loop (second
component `none`) and is caught only by the per-record `except`, so the
uploads already performed keep their state changes. -/
def gpAttachLoop (st : GpUpSt) (senderEmail ehash : String) :
    List Att → Nat → GpUpSt × Option (List String)
  | [], _ => (st, some [])
  | a :: rest, idx =>
    let save := senderEmail ++ "_" ++ String.mk (ehash.toList.take 8) ++ "_" ++
      toString idx ++ extOrBin a.filename
    match gp_upload_unique_file st a.content save "ATTACH_FILES_ID" with
    | .error _ => (st, none)
    | .ok (fid, st1) =>
      let (st2, res) := gpAttachLoop st1 senderEmail ehash rest (idx + 1)
      (st2, res.map (fun paths =>
        match fid with
        | some i => ("https://drive.google.com/file/d/" ++ i ++ "/view?usp=sharing") :: paths
        | none => paths))

/-- The record loop of `process_file` in `google_process.py:99-135`: dedup
the record hash, match with threshold `0.7`, check
`is_record_unique_in_sheet` (abstracted as `uniqueFn`, the outcome of the
remote uniqueness query for this record), then *reuse the cached attachment
references* for the email hash if present (`email_attachments_cache.get`),
otherwise upload the attachments and populate the cache; in both cases mark
the email hash consumed and append one row.  A per-record exception (e.g. a
`ValueError` re-raised by the uploader) skips just that record.  No check
against `processed_email_hashes` is made here, so a second record matching
an already-consumed email still produces a row. -/
def gpRecordLoop (matchFn : Row → Option EmailRec × ℚ) (uniqueFn : Row → Bool)
    (st : GpPipeSt) : List Row → GpPipeSt × List Row × List String
  | [] => (st, [], [])
  | r :: rest =>
    let rh := recordIdHash r
    if rh ∈ st.processed_records then gpRecordLoop matchFn uniqueFn st rest
    else
      let st1 := { st with processed_records := rh :: st.processed_records }
      match matchFn r with
      | (none, _) => gpRecordLoop matchFn uniqueFn st1 rest
      | (some e, score) =>
        if score < 7/10 then gpRecordLoop matchFn uniqueFn st1 rest
        else if !uniqueFn r then gpRecordLoop matchFn uniqueFn st1 rest
        else
          let cached := (st1.email_attachments_cache.lookup e.hash).getD []
          if cached.isEmpty then
            let (up1, res) := gpAttachLoop st1.up e.sender_email e.hash e.attachments 0
            match res with
            | none => gpRecordLoop matchFn uniqueFn { st1 with up := up1 } rest
            | some paths =>
              let st2 :=
                { st1 with
                  up := up1,
                  email_attachments_cache :=
                    (e.hash, paths) :: st1.email_attachments_cache,
                  processed_email_hashes :=
                    e.hash :: st1.processed_email_hashes }
              let row : Row :=
                [("sender_name", e.sender_name),
                 ("received_time", e.date),
                 ("sender_email_address", e.sender_email),
                 ("attach_path", String.intercalate ", " paths)]
              let acc := gpRecordLoop matchFn uniqueFn st2 rest
              (acc.1, row :: acc.2.1, e.hash :: acc.2.2)
          else
            let st2 := { st1 with
              processed_email_hashes := e.hash :: st1.processed_email_hashes }
            let row : Row :=
              [("sender_name", e.sender_name),
               ("received_time", e.date),
               ("sender_email_address", e.sender_email),
               ("attach_path", String.intercalate ", " cached)]
            let acc := gpRecordLoop matchFn uniqueFn st2 rest
            (acc.1, row :: acc.2.1, e.hash :: acc.2.2)

/-- `process_file(file_path, emails, semaphore)` of
`src/google_process.py:83-142` (matcher and remote uniqueness query
abstracted): returns state, the rows written to this file's sheet, and the
matched-email-hash set. -/
def gp_process_file (matchFn : Row → Option EmailRec × ℚ) (uniqueFn : Row → Bool)
    (st : GpPipeSt) (records : List Row) : GpPipeSt × List Row × List String :=
  gpRecordLoop matchFn uniqueFn st records

/-- Sequential processing of several files' record lists by
`gp_process_file`, collecting each file's row batch. -/
def gpRunFiles (matchFn : Row → Option EmailRec × ℚ) (uniqueFn : Row → Bool)
    (st : GpPipeSt) : List (List Row) → GpPipeSt × List (List Row)
  | [] => (st, [])
  | f :: rest =>
    let res := gp_process_file matchFn uniqueFn st f
    let res2 := gpRunFiles matchFn uniqueFn res.1 rest
    (res2.1, res.2.1 :: res2.2)

/-! ## Remaining definitions: decidability, claim-side predicates, scenario data -/

/-- Decidable equality for `Except` (componentwise). -/
instance {ε α : Type _} [DecidableEq ε] [DecidableEq α] : DecidableEq (Except ε α) := fun a b =>
  match a, b with
  | .error x, .error y =>
    if h : x = y then isTrue (by rw [h]) else isFalse (fun he => h (by cases he; rfl))
  | .error _, .ok _ => isFalse (fun he => Except.noConfusion he)
  | .ok _, .error _ => isFalse (fun he => Except.noConfusion he)
  | .ok x, .ok y =>
    if h : x = y then isTrue (by rw [h]) else isFalse (fun he => h (by cases he; rfl))

/-- Is `needle` a prefix of `hay`? (character lists). -/
def prefixCL : List Char → List Char → Bool
  | [], _ => true
  | _ :: _, [] => false
  | a :: as, b :: bs => a == b && prefixCL as bs

/-- Does `needle` occur contiguously inside `hay`? (character lists). -/
def infixCL (needle : List Char) : List Char → Bool
  | [] => prefixCL needle []
  | c :: rest => prefixCL needle (c :: rest) || infixCL needle rest

/-- The substring condition named by the spec's bonus rule: the merchant
string occurs literally, case-insensitively, as a contiguous substring of
the text (`merchant.lower() in text.lower()` in Python terms).  This
predicate belongs to the *claim*; no counterpart exists in the source. -/
def occursCaseInsensitive (needle hay : String) : Bool :=
  infixCL (needle.toList.map Char.toLower) (hay.toList.map Char.toLower)

/-- The email of the spec's matcher scenario:
`{hash:"h1", subject:"Invoice from Acme", body:"Amount due $42.50"}`. -/
def acmeEmail : EmailRec :=
  { hash := "h1", subject := "Invoice from Acme", body := "Amount due $42.50" }

/-- The record of the spec's matcher scenario:
`{merchant:"Acme", amount:"42.50"}`. -/
def acmeRecord : Row := [("merchant", "Acme"), ("amount", "42.50")]

/-- A one-word email used to exercise the matcher with a leftover trained
state and with the substring condition. -/
def acmeOnlyEmail : EmailRec := { hash := "hA", subject := "acme" }

/-- An email sharing no token with the records used against it. -/
def zzqqEmail : EmailRec := { hash := "hB", subject := "zzqq" }

/-- The shared email of the two-records-one-email scenario (hash `hZ`, one
`a.pdf` attachment). -/
def emailHZ : EmailRec :=
  { hash := "hZ", sender_name := "S", sender_email := "sx",
    date := "d", attachments := [⟨"a.pdf", "PDF"⟩] }

/-- First statement record of the shared-email scenario. -/
def recM1 : Row := [("merchant", "m1")]

/-- Second statement record of the shared-email scenario (distinct record
hash, same matched email). -/
def recM2 : Row := [("merchant", "m2")]

/-- A matcher outcome accepting every record with `emailHZ` at score 1
(both records of the scenario produce an accepted match on the same email
hash). -/
def matchToHZ : Row → Option EmailRec × ℚ := fun _ => (some emailHZ, 1)

/-- The row `google_process.process_file` writes for a record matched to
`emailHZ` whose single attachment was uploaded as Drive file `id1`. -/
def gpRowHZ : Row :=
  [("sender_name", "S"), ("received_time", "d"), ("sender_email_address", "sx"),
   ("attach_path", "https://drive.google.com/file/d/id1/view?usp=sharing")]

/-! # Theorems -/

/-! ## Uploader lemmas (`main.py` revision) -/

theorem upload_to_drive_uploaded (st : MainUpSt) (c : String) :
    (upload_to_drive st c).2.uploaded_file_hashes = st.uploaded_file_hashes := by
  rcases st with ⟨u, o, a, b⟩
  cases o with
  | nil => rfl
  | cons x rest => cases x <;> rfl

theorem upload_to_drive_attempts (st : MainUpSt) (c : String) :
    (upload_to_drive st c).2.attempts = st.attempts + 1 := by
  rcases st with ⟨u, o, a, b⟩
  cases o with
  | nil => rfl
  | cons x rest => cases x <;> rfl

theorem upload_to_drive_blobs_le (st : MainUpSt) (c : String) :
    (upload_to_drive st c).2.blobs.length ≤ st.blobs.length + 1 := by
  rcases st with ⟨u, o, a, b⟩
  cases o with
  | nil => exact Nat.le_succ _
  | cons x rest => cases x with
    | none => exact Nat.le_succ _
    | some i => exact Nat.le_refl _

theorem upload_to_drive_blob_mem (st : MainUpSt) (c x : String)
    (h : x ∈ (upload_to_drive st c).2.blobs) : x = c ∨ x ∈ st.blobs := by
  rcases st with ⟨u, o, a, b⟩
  cases o with
  | nil => exact Or.inr h
  | cons y rest => cases y with
    | none => exact Or.inr h
    | some i =>
      rcases List.mem_cons.mp h with h' | h'
      · exact Or.inl h'
      · exact Or.inr h'

theorem upload_unique_file_already (st : MainUpSt) (c n f : String)
    (h : contentHash c ∈ st.uploaded_file_hashes) :
    upload_unique_file st c n f = (none, st) := by
  unfold upload_unique_file
  simp [h]

theorem upload_unique_file_mem (st : MainUpSt) (c n f : String) :
    contentHash c ∈ (upload_unique_file st c n f).2.uploaded_file_hashes := by
  unfold upload_unique_file
  by_cases h : contentHash c ∈ st.uploaded_file_hashes
  · simp [h]
  · simp only [h, if_false]
    rw [upload_to_drive_uploaded]
    exact List.mem_cons_self _ _

theorem upload_unique_file_uploaded_mono (st : MainUpSt) (c n f s : String)
    (h : s ∈ st.uploaded_file_hashes) :
    s ∈ (upload_unique_file st c n f).2.uploaded_file_hashes := by
  unfold upload_unique_file
  by_cases hm : contentHash c ∈ st.uploaded_file_hashes
  · simp [hm, h]
  · simp only [hm, if_false]
    rw [upload_to_drive_uploaded]
    exact List.mem_cons_of_mem _ h

/-- A second call with byte-identical content returns `None` and leaves the
state untouched (helper for the upload-once property). -/
theorem upload_unique_second_none (st : MainUpSt) (c n1 n2 f1 f2 : String) :
    upload_unique_file (upload_unique_file st c n1 f1).2 c n2 f2
      = (none, (upload_unique_file st c n1 f1).2) :=
  upload_unique_file_already _ _ _ _ (upload_unique_file_mem st c n1 f1)

/-- C2: Upload-once.  For every prior run state `st`, byte string `c` and
any two proposed names `n1`, `n2` (and folders), calling
`upload_unique_file` (`main.py:70-87`) twice with content `c` performs at
most one backend upload attempt and stores at most one blob in total, and
the second call returns `None`: identity for dedup is `md5(content)`
(`uploaded_file_hashes`), never the filename — the names do not appear in
the dedup check at all. -/
theorem C2_upload_once (st : MainUpSt) (c n1 n2 f1 f2 : String) :
    (upload_unique_file (upload_unique_file st c n1 f1).2 c n2 f2).1 = none ∧
    (upload_unique_file (upload_unique_file st c n1 f1).2 c n2 f2).2.attempts
      ≤ st.attempts + 1 ∧
    (upload_unique_file (upload_unique_file st c n1 f1).2 c n2 f2).2.blobs.length
      ≤ st.blobs.length + 1 := by
  rw [upload_unique_second_none]
  refine ⟨rfl, ?_, ?_⟩
  · unfold upload_unique_file
    by_cases h : contentHash c ∈ st.uploaded_file_hashes
    · simp [h]
    · simp only [h, if_false]
      rw [upload_to_drive_attempts]
  · unfold upload_unique_file
    by_cases h : contentHash c ∈ st.uploaded_file_hashes
    · simp [h]
    · simp only [h, if_false]
      exact upload_to_drive_blobs_le _ _

theorem runUploads_no_new (st : MainUpSt) (c : String)
    (h1 : contentHash c ∈ st.uploaded_file_hashes) (h2 : c ∉ st.blobs) :
    ∀ calls, c ∉ (runUploads st calls).blobs := by
  intro calls
  induction calls generalizing st with
  | nil => simpa [runUploads] using h2
  | cons p rest ih =>
    obtain ⟨c', n', f'⟩ := p
    rw [runUploads]
    apply ih
    · exact upload_unique_file_uploaded_mono _ _ _ _ _ h1
    · by_cases hm : contentHash c' ∈ st.uploaded_file_hashes
      · rw [upload_unique_file_already _ _ _ _ hm]
        exact h2
      · intro hc
        unfold upload_unique_file at hc
        simp only [hm, if_false] at hc
        rcases upload_to_drive_blob_mem _ _ _ hc with rfl | hold
        · exact hm h1
        · exact h2 hold

/-- C9: ledger marked before upload, even on failure.  In
`upload_unique_file` (`main.py:70-87`) the MD5 of the content is inserted
into `uploaded_file_hashes` *before* `upload_to_drive` is called
(`main.py:76` precedes `main.py:79`).  Consequently: (1) after any call the
hash is in the ledger, whatever the outcome; (2) a call whose content hash
is already in the ledger returns `None` immediately with the state
untouched — no upload attempt; (3) if the first call returns `None`
(failed upload) then no later sequence of calls in the same run ever
stores that content as a blob. -/
theorem C9_ledger_first (st : MainUpSt) (c n f : String) :
    contentHash c ∈ (upload_unique_file st c n f).2.uploaded_file_hashes ∧
    (contentHash c ∈ st.uploaded_file_hashes →
      upload_unique_file st c n f = (none, st)) ∧
    ((upload_unique_file st c n f).1 = none → c ∉ st.blobs →
      ∀ calls, c ∉ (runUploads (upload_unique_file st c n f).2 calls).blobs) := by
  refine ⟨upload_unique_file_mem st c n f,
    fun h => upload_unique_file_already st c n f h,
    fun hfail hnb calls => ?_⟩
  apply runUploads_no_new
  · exact upload_unique_file_mem st c n f
  · by_cases hm : contentHash c ∈ st.uploaded_file_hashes
    · rw [upload_unique_file_already st c n f hm]
      exact hnb
    · unfold upload_unique_file at hfail ⊢
      simp only [hm, if_false] at hfail ⊢
      rcases st with ⟨u, o, a, b⟩
      cases o with
      | nil => simpa [upload_to_drive] using hnb
      | cons x rest =>
        cases x with
        | none => simpa [upload_to_drive] using hnb
        | some i => simp [upload_to_drive] at hfail

/-- C9 witness: a run whose first upload of content `"doc"` fails (backend
oracle `[none]`); a later call with the same content under a different
name never stores the content. -/
theorem C9_ledger_first_witness :
    "doc" ∉ (runUploads
      (upload_unique_file ⟨[], [none], 0, []⟩ "doc" "a.pdf" "fld").2
      [("doc", "b.pdf", "fld")]).blobs :=
  (C9_ledger_first ⟨[], [none], 0, []⟩ "doc" "a.pdf" "fld").2.2 (by decide)
    (by decide) [("doc", "b.pdf", "fld")]

/-- C10: the uniqueness check fails open.  For well-formed inputs
(`is_record_unique_in_sheet`, `src/drive_uploader.py:286-336`), every
degraded backend outcome — the backend raising during the check, the sheet
not existing, or the sheet downloading as empty/unreadable — yields
`.ok true`: the record is treated as new, so a backend failure can only
permit a duplicate, never suppress a write. -/
theorem C10_fails_open (sheet folder : String) (record : Row) (msg : String)
    (h1 : pyStrip sheet ≠ "") (h2 : pyStrip folder ≠ "") (h3 : record ≠ []) :
    is_record_unique_in_sheet (.error msg) sheet folder record = .ok true ∧
    is_record_unique_in_sheet (.ok none) sheet folder record = .ok true ∧
    is_record_unique_in_sheet (.ok (some [])) sheet folder record = .ok true := by
  have h3' : record.isEmpty = false := by
    cases record with
    | nil => exact absurd rfl h3
    | cons a l => rfl
  refine ⟨?_, ?_, ?_⟩ <;> simp [is_record_unique_in_sheet, h1, h2, h3']

/-- C10 witness at a concrete well-formed input. -/
theorem C10_fails_open_witness :
    is_record_unique_in_sheet (.error "HttpError 500") "sheet1" "folderA"
      [("merchant", "m")] = .ok true ∧
    is_record_unique_in_sheet (.ok none) "sheet1" "folderA"
      [("merchant", "m")] = .ok true ∧
    is_record_unique_in_sheet (.ok (some [])) "sheet1" "folderA"
      [("merchant", "m")] = .ok true :=
  C10_fails_open "sheet1" "folderA" [("merchant", "m")] "HttpError 500"
    (by decide) (by decide) (by decide)

/-- C8 counterexample: the `google_process.py` unique-upload operation
*raises* for an invalid input instead of returning `None`: empty content
trips the `ValueError` at `src/google_process.py:48-49`, which is thrown
before the `try` block and so propagates past the `uploadUnique`
boundary (and in `gp_process_file` aborts the record that owned the
attachment). -/
theorem C8_cex :
    gp_upload_unique_file ⟨[], [], 0, []⟩ "" "a.pdf" "folder"
      = .error "ValueError: File content must be non-empty bytes." := by
  decide

/-- C8 amended: only the `main.py` uploader catches *every* error (its
whole body sits in `try/except → None`, which is why its embedding
`upload_unique_file` is a total `Option`-valued function); the
`google_process.py` variant deliberately raises `ValueError` for invalid
inputs (empty content, blank save name, blank folder id) — but on every
*valid* input it never lets an error escape: sanitization failures,
Drive-existence outcomes and backend upload failures (any oracle) all
surface as an `.ok` result, a failed upload producing `None`. -/
theorem C8_amended (st : GpUpSt) (content save_name folder_id : String)
    (h1 : content ≠ "") (h2 : pyStrip save_name ≠ "") (h3 : pyStrip folder_id ≠ "") :
    exceptIsOk (gp_upload_unique_file st content save_name folder_id) = true := by
  unfold gp_upload_unique_file
  simp only [h1, h2, h3, if_false]
  by_cases h4 : sanitize_filename save_name = ""
  · simp [h4, exceptIsOk]
  · simp only [h4, if_false]
    by_cases h5 : (folder_id, sanitize_filename save_name) ∈ st.driveNames
    · simp [h5, exceptIsOk]
    · simp only [h5, if_false]
      rcases st with ⟨d, o, a, b⟩
      cases o with
      | nil => rfl
      | cons x rest => cases x <;> rfl

/-- C8 amended witness: a valid input with an erroring backend (exhausted
oracle) still produces an `.ok` outcome. -/
theorem C8_amended_witness :
    exceptIsOk (gp_upload_unique_file ⟨[], [], 0, []⟩ "PDFBYTES" "a.pdf" "folder")
      = true :=
  C8_amended ⟨[], [], 0, []⟩ "PDFBYTES" "a.pdf" "folder"
    (by decide) (by decide) (by decide)

/-! ## Sheet-writer lemmas (C3) -/

theorem filterUniqueAux_subset (seen : List String) (rs : List Row) (r : Row)
    (h : r ∈ filterUniqueAux seen rs) : r ∈ rs := by
  induction rs generalizing seen with
  | nil => simp [filterUniqueAux] at h
  | cons x rest ih =>
    rw [filterUniqueAux] at h
    by_cases hx : rowIdHash x ∈ seen
    · rw [if_pos hx] at h
      exact List.mem_cons_of_mem _ (ih _ h)
    · rw [if_neg hx] at h
      rcases List.mem_cons.mp h with rfl | h'
      · exact List.mem_cons_self _ _
      · exact List.mem_cons_of_mem _ (ih _ h')

theorem filterUniqueAux_hash_mem (seen : List String) (rs : List Row) (r : Row)
    (h : r ∈ rs) :
    rowIdHash r ∈ seen ∨ rowIdHash r ∈ (filterUniqueAux seen rs).map rowIdHash := by
  induction rs generalizing seen with
  | nil => cases h
  | cons x rest ih =>
    rw [filterUniqueAux]
    by_cases hx : rowIdHash x ∈ seen
    · rw [if_pos hx]
      rcases List.mem_cons.mp h with rfl | h'
      · exact Or.inl hx
      · exact ih _ h'
    · rw [if_neg hx]
      rcases List.mem_cons.mp h with rfl | h'
      · right
        rw [List.map_cons]
        exact List.mem_cons_self _ _
      · rcases ih (rowIdHash x :: seen) h' with hm | hm
        · rcases List.mem_cons.mp hm with he | hs
          · right
            rw [List.map_cons, he]
            exact List.mem_cons_self _ _
          · exact Or.inl hs
        · right
          rw [List.map_cons]
          exact List.mem_cons_of_mem _ hm

theorem filterUniqueAux_nil_of (seen : List String) (rs : List Row)
    (h : ∀ r ∈ rs, rowIdHash r ∈ seen) : filterUniqueAux seen rs = [] := by
  induction rs with
  | nil => rfl
  | cons x rest ih =>
    rw [filterUniqueAux, if_pos (h x (List.mem_cons_self _ _))]
    exact ih fun r hr => h r (List.mem_cons_of_mem _ hr)

theorem map_fix {α : Type _} (l : List α) (f : α → α) (h : ∀ a ∈ l, f a = a) :
    l.map f = l := by
  induction l with
  | nil => rfl
  | cons x rest ih =>
    rw [List.map_cons, h x (List.mem_cons_self _ _),
      ih fun a ha => h a (List.mem_cons_of_mem _ ha)]

theorem lookup_cons_ne (k c : String) (v : String) (t : Row) (h : c ≠ k) :
    ((k, v) :: t).lookup c = t.lookup c := by
  have hb : (c == k) = false := beq_eq_false_iff_ne.mpr h
  simp [List.lookup, hb]

theorem reindex_self (r : Row) (h : (r.map Prod.fst).Nodup) :
    reindex (r.map Prod.fst) r = r := by
  induction r with
  | nil => rfl
  | cons p t ih =>
    obtain ⟨k, v⟩ := p
    simp only [List.map_cons] at h ⊢
    rcases List.nodup_cons.mp h with ⟨hk, ht⟩
    unfold reindex
    simp only [List.map_cons]
    congr 1
    · simp [List.lookup]
    · have hcong : ∀ c ∈ t.map Prod.fst,
          (fun c => (c, ((((k, v) :: t).lookup c).getD ""))) c
            = (fun c => (c, ((t.lookup c).getD ""))) c := by
        intro c hc
        have hck : c ≠ k := fun he => hk (he ▸ hc)
        simp only []
        rw [lookup_cons_ne _ _ _ _ hck]
      calc (t.map Prod.fst).map (fun c => (c, ((((k, v) :: t).lookup c).getD "")))
          = (t.map Prod.fst).map (fun c => (c, ((t.lookup c).getD ""))) :=
            List.map_congr_left hcong
        _ = t := ih ht

theorem colsOf_aux (K : List String) (rows : List Row)
    (hK : ∀ r ∈ rows, r.map Prod.fst = K) :
    rows.foldl (fun acc r => acc ++ (r.map Prod.fst).filter (fun k => !acc.contains k)) K
      = K := by
  induction rows with
  | nil => rfl
  | cons r rest ih =>
    have hstep : K ++ (r.map Prod.fst).filter (fun k => !K.contains k) = K := by
      rw [hK r (List.mem_cons_self _ _)]
      have : K.filter (fun k => !K.contains k) = [] := by
        apply List.filter_eq_nil_iff.mpr
        intro a ha
        simp [ha]
      rw [this, List.append_nil]
    rw [List.foldl_cons, hstep]
    exact ih fun r' hr' => hK r' (List.mem_cons_of_mem _ hr')

theorem colsOf_eq (rows : List Row) (K : List String) (hne : rows ≠ [])
    (hK : ∀ r ∈ rows, r.map Prod.fst = K) : colsOf rows = K := by
  cases rows with
  | nil => exact absurd rfl hne
  | cons r rest =>
    unfold colsOf
    rw [List.foldl_cons]
    have hstep : ([] : List String) ++ (r.map Prod.fst).filter
        (fun k => !([] : List String).contains k) = K := by
      rw [hK r (List.mem_cons_self _ _)]
      simp
    rw [hstep]
    exact colsOf_aux K rest fun r' hr' => hK r' (List.mem_cons_of_mem _ hr')

theorem dsm_nonempty (doc : Option (List Row)) (rs : List Row)
    (h : rs.isEmpty = false) :
    drive_sheet_manager doc rs =
      (if (filterUniqueAux ((doc.getD []).map rowIdHash) rs).isEmpty then doc
       else some (((doc.getD []) ++ filterUniqueAux ((doc.getD []).map rowIdHash) rs).map
         (reindex (colsOf ((doc.getD []) ++ filterUniqueAux ((doc.getD []).map rowIdHash) rs))))) := by
  unfold drive_sheet_manager
  rw [h]
  rfl

/-- C3 counterexample: the second identical merge is *not* idempotent when
the batch rows carry different column sets.  First merge of
`[{a:x}, {b:y}]` into a fresh document stores the rows reindexed over the
union columns `{a,b}` with `""` fills; on the second call the stored rows
hash as `{a:x, b:""}`/`{a:"", b:y}` while the incoming rows hash as
`{a:x}`/`{b:y}`, so nothing is filtered and both rows are appended again —
four rows after two calls of one merge's worth of two. -/
theorem C3_cex :
    drive_sheet_manager (drive_sheet_manager none [[("a", "x")], [("b", "y")]])
        [[("a", "x")], [("b", "y")]]
      ≠ drive_sheet_manager none [[("a", "x")], [("b", "y")]] ∧
    (drive_sheet_manager none [[("a", "x")], [("b", "y")]]).map List.length
      = some 2 ∧
    (drive_sheet_manager (drive_sheet_manager none [[("a", "x")], [("b", "y")]])
        [[("a", "x")], [("b", "y")]]).map List.length
      = some 4 := by
  decide

/-- C3 amended: idempotent merge for uniform schemas.  When every row of
the batch and every stored row share one duplicate-free column list `K` —
which is how the pipeline always calls the writer, every row being built
from the same dict literal — the second identical call filters every row
out against the stored hashes and leaves the document exactly as one merge
left it. -/
theorem C3_idempotent_uniform (doc : Option (List Row)) (rs : List Row)
    (K : List String) (hnd : K.Nodup) (hrs : ∀ r ∈ rs, r.map Prod.fst = K)
    (hdoc : ∀ r ∈ doc.getD [], r.map Prod.fst = K) (hne : rs ≠ []) :
    drive_sheet_manager (drive_sheet_manager doc rs) rs
      = drive_sheet_manager doc rs := by
  have hrsE : rs.isEmpty = false := by
    cases rs with
    | nil => exact absurd rfl hne
    | cons a l => rfl
  by_cases hU : (filterUniqueAux ((doc.getD []).map rowIdHash) rs).isEmpty
  · have h1 : drive_sheet_manager doc rs = doc := by
      rw [dsm_nonempty doc rs hrsE, if_pos hU]
    rw [h1, h1]
  · have hUne : filterUniqueAux ((doc.getD []).map rowIdHash) rs ≠ [] := by
      intro hcontra
      rw [hcontra] at hU
      exact hU rfl
    have hKall : ∀ r ∈ (doc.getD []) ++ filterUniqueAux ((doc.getD []).map rowIdHash) rs,
        r.map Prod.fst = K := by
      intro r hr
      rcases List.mem_append.mp hr with h | h
      · exact hdoc r h
      · exact hrs r (filterUniqueAux_subset _ _ r h)
    have hallne : (doc.getD []) ++ filterUniqueAux ((doc.getD []).map rowIdHash) rs ≠ [] := by
      intro hcontra
      rcases List.append_eq_nil.mp hcontra with ⟨_, h2⟩
      exact hUne h2
    have hcols : colsOf ((doc.getD []) ++ filterUniqueAux ((doc.getD []).map rowIdHash) rs) = K :=
      colsOf_eq _ _ hallne hKall
    have hstored :
        ((doc.getD []) ++ filterUniqueAux ((doc.getD []).map rowIdHash) rs).map
            (reindex (colsOf ((doc.getD []) ++ filterUniqueAux ((doc.getD []).map rowIdHash) rs)))
          = (doc.getD []) ++ filterUniqueAux ((doc.getD []).map rowIdHash) rs := by
      rw [hcols]
      apply map_fix
      intro r hr
      have hkr := hKall r hr
      rw [← hkr]
      exact reindex_self r (hkr ▸ hnd)
    have h1 : drive_sheet_manager doc rs
        = some ((doc.getD []) ++ filterUniqueAux ((doc.getD []).map rowIdHash) rs) := by
      rw [dsm_nonempty doc rs hrsE, if_neg (by simpa using hU), hstored]
    have hallhash : ∀ r ∈ rs,
        rowIdHash r ∈ ((doc.getD []) ++ filterUniqueAux ((doc.getD []).map rowIdHash) rs).map rowIdHash := by
      intro r hr
      rw [List.map_append]
      rcases filterUniqueAux_hash_mem ((doc.getD []).map rowIdHash) rs r hr with h | h
      · exact List.mem_append.mpr (Or.inl h)
      · exact List.mem_append.mpr (Or.inr h)
    have h2 : filterUniqueAux
        (((doc.getD []) ++ filterUniqueAux ((doc.getD []).map rowIdHash) rs).map rowIdHash) rs = [] :=
      filterUniqueAux_nil_of _ _ hallhash
    rw [h1, dsm_nonempty _ rs hrsE]
    simp only [Option.getD_some]
    rw [h2]
    rfl

/-- C3 amended witness: a uniform-schema batch merged twice into an
initially empty document adds nothing the second time. -/
theorem C3_idempotent_uniform_witness :
    drive_sheet_manager
        (drive_sheet_manager (some []) [[("merchant", "m"), ("amount", "5")]])
        [[("merchant", "m"), ("amount", "5")]]
      = drive_sheet_manager (some []) [[("merchant", "m"), ("amount", "5")]] :=
  C3_idempotent_uniform (some []) [[("merchant", "m"), ("amount", "5")]]
    ["merchant", "amount"] (by decide) (by decide) (by decide) (by decide)

/-! ## Matcher theorems (C4, C5, C6) -/

/-- C5 counterexample: the result is *not* `(none, 0.0)` for an empty
corpus when model state is left over.  After an earlier call trained the
singleton on `[acmeOnlyEmail]`, `match_record_email(record, [])` does not
retrain (`src/matcher.py:77` requires a non-empty corpus) and
`EmailMatcherModel.match` scores the query against the *stale* trained
corpus, returning the old email with (squared) score 1. -/
theorem C5_cex :
    (Matcher.match_record_email idfUnit
        (Matcher.match_record_email idfUnit MatcherState.fresh
          [("merchant", "acme")] [acmeOnlyEmail] (1/2)).2
        [("merchant", "acme")] [] (1/2)).1
      = (some acmeOnlyEmail, 1) ∧
    (Matcher.match_record_email idfUnit
        (Matcher.match_record_email idfUnit MatcherState.fresh
          [("merchant", "acme")] [acmeOnlyEmail] (1/2)).2
        [("merchant", "acme")] [] (1/2)).1
      ≠ ((none : Option EmailRec), (0 : ℚ)) := by
  constructor
  · decide
  · decide

/-- C5 amended: from the *initial* matcher state (no singleton, no
persisted model), `match_record_email` with an empty corpus returns
`(None, 0.0)` for every record and threshold: nothing trains
(`src/matcher.py:77`) and the untrained model's `match` short-circuits
(`src/email_model.py:76-78`). -/
theorem C5_fresh_empty (idfFn : ℕ → ℕ → ℚ) (record : Row) (t : ℚ) :
    (Matcher.match_record_email idfFn MatcherState.fresh record [] t).1
      = (none, 0) := rfl

/-- C6 counterexample: `match` is not a pure function of (record, corpus).
Two calls with the identical record `{merchant:"acme"}` and identical
corpus `[zzqqEmail]` return different pairs: from the fresh state the
model trains on `[zzqqEmail]` and scores 0; but if an earlier call already
trained the singleton on `[acmeOnlyEmail]`, the corpus argument is ignored
(`src/matcher.py:77` trains only when `tfidf_matrix is None`) and the call
returns the stale `acmeOnlyEmail` with squared score 1. -/
theorem C6_cex :
    (Matcher.match_record_email idfUnit MatcherState.fresh
        [("merchant", "acme")] [zzqqEmail] (1/2)).1 = (none, 0) ∧
    (Matcher.match_record_email idfUnit
        (Matcher.match_record_email idfUnit MatcherState.fresh
          [("merchant", "acme")] [acmeOnlyEmail] (1/2)).2
        [("merchant", "acme")] [zzqqEmail] (1/2)).1 = (some acmeOnlyEmail, 1) ∧
    (Matcher.match_record_email idfUnit MatcherState.fresh
        [("merchant", "acme")] [zzqqEmail] (1/2)).1
      ≠ (Matcher.match_record_email idfUnit
        (Matcher.match_record_email idfUnit MatcherState.fresh
          [("merchant", "acme")] [acmeOnlyEmail] (1/2)).2
        [("merchant", "acme")] [zzqqEmail] (1/2)).1 := by
  refine ⟨by decide, by decide, by decide⟩

/-- C4 counterexample: no substring bonus exists.  Merchant `"acm"` occurs
case-insensitively as a literal substring of the subject `"acme"`, so the
claim requires the matcher to add +0.3 to the similarity (yielding a
returned score of at least 0.3); but `EmailMatcherModel.match`
(`src/email_model.py:74-86`) computes plain TF-IDF cosine similarity and
nothing else: the query token `acm` is outside the fitted vocabulary, the
query vector is zero, and the call returns `(None, 0.0)`. -/
theorem C4_cex :
    occursCaseInsensitive "acm" acmeOnlyEmail.subject = true ∧
    (Matcher.match_record_email idfUnit MatcherState.fresh
        [("merchant", "acm")] [acmeOnlyEmail] (1/2)).1 = (none, 0) := by
  refine ⟨by decide, by decide⟩

theorem dedupFirstAux_mem (seen xs : List String) (t : String)
    (h : t ∈ dedupFirstAux seen xs) : t ∈ xs := by
  induction xs generalizing seen with
  | nil => simp [dedupFirstAux] at h
  | cons x rest ih =>
    rw [dedupFirstAux] at h
    by_cases hx : seen.contains x
    · rw [if_pos hx] at h
      exact List.mem_cons_of_mem _ (ih _ h)
    · rw [if_neg hx] at h
      rcases List.mem_cons.mp h with rfl | h'
      · exact List.mem_cons_self _ _
      · exact List.mem_cons_of_mem _ (ih _ h')

theorem buildVocab_single_mem (d : List String) (t : String)
    (h : t ∈ buildVocab [d]) : t ∈ d := by
  unfold buildVocab at h
  have := dedupFirstAux_mem _ _ _ h
  simpa using this

theorem dfCount_single (d : List String) (t : String) (h : t ∈ d) :
    dfCount [d] t = 1 := by
  have hc : d.contains t = true := List.elem_iff.mpr h
  simp [dfCount, List.filter_cons, h]

theorem tfidfWeight_single_congr (idfFn : ℕ → ℕ → ℚ) (hidf : idfFn 1 1 = 1)
    (d toks : List String) (t : String) (h : t ∈ d) :
    tfidfWeight idfFn [d] toks t = tfidfWeight idfUnit [d] toks t := by
  unfold tfidfWeight
  rw [show ([d] : List (List String)).length = 1 from rfl, dfCount_single d t h,
    hidf]
  rfl

theorem simSq_single_congr (idfFn : ℕ → ℕ → ℚ) (hidf : idfFn 1 1 = 1)
    (v d q dd : List String) (hv : ∀ x ∈ v, x ∈ d) :
    simSq idfFn ⟨v, [d]⟩ q dd = simSq idfUnit ⟨v, [d]⟩ q dd := by
  unfold simSq
  simp only []
  have h1 : v.map (fun t => tfidfWeight idfFn [d] q t * tfidfWeight idfFn [d] dd t)
      = v.map (fun t => tfidfWeight idfUnit [d] q t * tfidfWeight idfUnit [d] dd t) :=
    List.map_congr_left fun t ht => by
      rw [tfidfWeight_single_congr idfFn hidf d q t (hv t ht),
        tfidfWeight_single_congr idfFn hidf d dd t (hv t ht)]
  have h2 : v.map (fun t => (tfidfWeight idfFn [d] q t) ^ 2)
      = v.map (fun t => (tfidfWeight idfUnit [d] q t) ^ 2) :=
    List.map_congr_left fun t ht => by
      rw [tfidfWeight_single_congr idfFn hidf d q t (hv t ht)]
  have h3 : v.map (fun t => (tfidfWeight idfFn [d] dd t) ^ 2)
      = v.map (fun t => (tfidfWeight idfUnit [d] dd t) ^ 2) :=
    List.map_congr_left fun t ht => by
      rw [tfidfWeight_single_congr idfFn hidf d dd t (hv t ht)]
  rw [h1, h2, h3]

theorem matchEmail_single_congr (idfFn : ℕ → ℕ → ℚ) (hidf : idfFn 1 1 = 1)
    (m : EmailMatcherModel) (v d : List String) (mer amt : String) (t : ℚ)
    (hm : m.tfidf_matrix = some ⟨v, [d]⟩) (hv : ∀ x ∈ v, x ∈ d) :
    m.matchEmail idfFn mer amt t = m.matchEmail idfUnit mer amt t := by
  unfold EmailMatcherModel.matchEmail
  rw [hm]
  simp only [List.map_cons, List.map_nil]
  rw [simSq_single_congr idfFn hidf v d (tokenize (mer ++ " " ++ amt)) d hv]

theorem mre_fresh_single_congr (idfFn : ℕ → ℕ → ℚ) (hidf : idfFn 1 1 = 1)
    (record : Row) (e : EmailRec) (t : ℚ) :
    (Matcher.match_record_email idfFn MatcherState.fresh record [e] t).1
      = (Matcher.match_record_email idfUnit MatcherState.fresh record [e] t).1 := by
  show (Matcher.trainedModel MatcherState.fresh [e]).matchEmail idfFn
      ((record.lookup "merchant").getD "") ((record.lookup "amount").getD "") t
    = (Matcher.trainedModel MatcherState.fresh [e]).matchEmail idfUnit
      ((record.lookup "merchant").getD "") ((record.lookup "amount").getD "") t
  have hres : Matcher.trainedModel MatcherState.fresh [e]
      = EmailMatcherModel.init.train [e] := rfl
  rw [hres]
  by_cases hv : (buildVocab [docTokens e]).isEmpty
  · have htrain : EmailMatcherModel.init.train [e]
        = { emails := [e], tfidf_matrix := none } := by
      simp [EmailMatcherModel.train, EmailMatcherModel.init, hv]
    rw [htrain]
    rfl
  · have htrain : EmailMatcherModel.init.train [e]
        = ⟨[e], some ⟨buildVocab [docTokens e], [docTokens e]⟩⟩ := by
      simp [EmailMatcherModel.train, EmailMatcherModel.init, hv]
    rw [htrain]
    exact matchEmail_single_congr idfFn hidf _ _ _ _ _ _ rfl
      (buildVocab_single_mem (docTokens e))

/-- C4 amended: the matcher applies *no* substring bonus — its score is the
TF-IDF cosine similarity and nothing else (see `C4_cex`) — but the spec's
scenario conclusion still holds through token overlap alone: for corpus
`[{subject:"Invoice from Acme", body:"Amount due $42.50"}]` and record
`{merchant:"Acme", amount:"42.50"}`, `match` returns that email with
squared cosine `3/4` (cosine `≈ 0.866`), which clears the `0.7` bar since
`(7/10)² ≤ 3/4`.  Stated for every idf function with the one value sklearn
pins for a single-document corpus, `idf(1,1) = ln 1 + 1 = 1`. -/
theorem C4_scenario (idfFn : ℕ → ℕ → ℚ) (hidf : idfFn 1 1 = 1) :
    (Matcher.match_record_email idfFn MatcherState.fresh acmeRecord
        [acmeEmail] (1/2)).1 = (some acmeEmail, 3/4) ∧
    ((7 : ℚ)/10) ^ 2 ≤ 3/4 := by
  constructor
  · rw [mre_fresh_single_congr idfFn hidf acmeRecord acmeEmail (1/2)]
    decide
  · decide

/-- C4 amended witness at the exact sklearn idf value for a
single-document corpus. -/
theorem C4_scenario_witness :
    (Matcher.match_record_email idfUnit MatcherState.fresh acmeRecord
        [acmeEmail] (1/2)).1 = (some acmeEmail, 3/4) ∧
    ((7 : ℚ)/10) ^ 2 ≤ 3/4 :=
  C4_scenario idfUnit rfl

/-- Retraining on the same corpus is the identity when the first training
left the model untrained (the empty-vocabulary path of
`src/email_model.py:52-62`): the second `train` recomputes the same empty
vocabulary and only reassigns `self.emails` to the same list. -/
theorem train_idem (m : EmailMatcherModel) (emails : List EmailRec)
    (h : (m.train emails).tfidf_matrix = none) (hne : emails ≠ []) :
    (m.train emails).train emails = m.train emails := by
  have hE : emails.isEmpty = false := by
    cases emails with
    | nil => exact absurd rfl hne
    | cons a l => rfl
  by_cases hv : (buildVocab (emails.map docTokens)).isEmpty
  · simp [EmailMatcherModel.train, hE, hv]
  · exfalso
    rw [EmailMatcherModel.train] at h
    simp only [hE, Bool.false_eq_true, if_false] at h
    rw [if_neg (by simpa using hv)] at h
    simp at h

/-- C6 amended: `match` is deterministic given the singleton state —
calling `match_record_email` twice in immediate succession with the same
record, corpus and threshold yields the same `(email, score)` pair both
times, whatever the starting state (the second call reuses the model the
first call left behind, or retrains identically in the empty-vocabulary
case).  The hidden-state dependence itself is real: see `C6_cex`. -/
theorem C6_sequential_deterministic (idfFn : ℕ → ℕ → ℚ) (st : MatcherState)
    (record : Row) (emails : List EmailRec) (t : ℚ) :
    (Matcher.match_record_email idfFn
        (Matcher.match_record_email idfFn st record emails t).2
        record emails t).1
      = (Matcher.match_record_email idfFn st record emails t).1 := by
  show (Matcher.trainedModel
      ⟨some (Matcher.trainedModel st emails), _⟩ emails).matchEmail idfFn
      ((record.lookup "merchant").getD "") ((record.lookup "amount").getD "") t
    = (Matcher.trainedModel st emails).matchEmail idfFn
      ((record.lookup "merchant").getD "") ((record.lookup "amount").getD "") t
  have hres : ∀ d, Matcher.resolveModel ⟨some (Matcher.trainedModel st emails), d⟩
      = Matcher.trainedModel st emails := fun d => rfl
  rw [Matcher.trainedModel, Matcher.needsTraining, hres]
  by_cases hnt : ((Matcher.trainedModel st emails).tfidf_matrix.isNone
      && !emails.isEmpty) = true
  · rw [if_pos hnt]
    rcases Bool.and_eq_true_iff.mp hnt with ⟨hNone, hNe⟩
    have hne : emails ≠ [] := by
      cases emails with
      | nil => simp at hNe
      | cons a l => exact List.cons_ne_nil a l
    have hm1none : (Matcher.trainedModel st emails).tfidf_matrix = none :=
      Option.isNone_iff_eq_none.mp hNone
    rw [Matcher.trainedModel] at hm1none ⊢
    by_cases hc : Matcher.needsTraining st emails
    · rw [if_pos hc] at hm1none ⊢
      rw [train_idem (Matcher.resolveModel st) emails hm1none hne]
    · exfalso
      rw [if_neg hc] at hm1none
      rw [Matcher.needsTraining] at hc
      have : (Matcher.resolveModel st).tfidf_matrix.isNone = true := by
        rw [hm1none]; rfl
      exact hc (by rw [this, hNe]; rfl)
  · rw [if_neg hnt]

/-! ## Orchestration lemmas (C1) -/

theorem processRecordStep_inv (mf : Row → Option EmailRec × ℚ) (st : LedgerSt)
    (fi : Nat) (r : Row)
    (h1 : ∀ h, h ∈ st.processed_email_hashes ↔ ∃ i, (i, h) ∈ st.matched)
    (h2 : ∀ i j h, (i, h) ∈ st.matched → (j, h) ∈ st.matched → i = j) :
    (∀ h, h ∈ (processRecordStep mf st fi r).processed_email_hashes
        ↔ ∃ i, (i, h) ∈ (processRecordStep mf st fi r).matched) ∧
    (∀ i j h, (i, h) ∈ (processRecordStep mf st fi r).matched
        → (j, h) ∈ (processRecordStep mf st fi r).matched → i = j) := by
  unfold processRecordStep
  by_cases hr : recordIdHash r ∈ st.processed_records
  · rw [if_pos hr]
    exact ⟨h1, h2⟩
  · rw [if_neg hr]
    rcases hmf : mf r with ⟨eo, score⟩
    cases eo with
    | none => exact ⟨h1, h2⟩
    | some e =>
      dsimp only
      by_cases hs : score < 7/10
      · rw [if_pos hs]
        exact ⟨h1, h2⟩
      · rw [if_neg hs]
        by_cases hh : e.hash ∈ st.processed_email_hashes
        · rw [if_pos hh]
          exact ⟨h1, h2⟩
        · rw [if_neg hh]
          constructor
          · intro h
            constructor
            · intro hmem
              rcases List.mem_cons.mp hmem with rfl | hmem'
              · exact ⟨fi, List.mem_cons_self _ _⟩
              · rcases (h1 h).mp hmem' with ⟨i, hi⟩
                exact ⟨i, List.mem_cons_of_mem _ hi⟩
            · rintro ⟨i, hi⟩
              rcases List.mem_cons.mp hi with he | hi'
              · rcases Prod.mk.injEq .. ▸ he with ⟨_, rfl⟩
                exact List.mem_cons_self _ _
              · exact List.mem_cons_of_mem _ ((h1 h).mpr ⟨i, hi'⟩)
          · intro i j h hi hj
            rcases List.mem_cons.mp hi with hei | hi'
            · rcases List.mem_cons.mp hj with hej | hj'
              · rcases Prod.mk.injEq .. ▸ hei with ⟨rfl, _⟩
                rcases Prod.mk.injEq .. ▸ hej with ⟨rfl, _⟩
                rfl
              · exfalso
                rcases Prod.mk.injEq .. ▸ hei with ⟨_, rfl⟩
                exact hh ((h1 e.hash).mpr ⟨j, hj'⟩)
            · rcases List.mem_cons.mp hj with hej | hj'
              · exfalso
                rcases Prod.mk.injEq .. ▸ hej with ⟨_, rfl⟩
                exact hh ((h1 e.hash).mpr ⟨i, hi'⟩)
              · exact h2 i j h hi' hj'

theorem runFiles_inv (mf : Row → Option EmailRec × ℚ) (sched : List (Nat × Row))
    (st : LedgerSt)
    (h1 : ∀ h, h ∈ st.processed_email_hashes ↔ ∃ i, (i, h) ∈ st.matched)
    (h2 : ∀ i j h, (i, h) ∈ st.matched → (j, h) ∈ st.matched → i = j) :
    (∀ h, h ∈ (runFiles mf st sched).processed_email_hashes
        ↔ ∃ i, (i, h) ∈ (runFiles mf st sched).matched) ∧
    (∀ i j h, (i, h) ∈ (runFiles mf st sched).matched
        → (j, h) ∈ (runFiles mf st sched).matched → i = j) := by
  induction sched generalizing st with
  | nil => exact ⟨h1, h2⟩
  | cons p rest ih =>
    obtain ⟨fi, r⟩ := p
    rw [runFiles]
    rcases processRecordStep_inv mf st fi r h1 h2 with ⟨h1', h2'⟩
    exact ih _ h1' h2'

theorem process_unmatched_not_in_mu (mu : List String) (es : List EmailRec)
    (st : LedgerSt) (h : String)
    (hmem : h ∈ (process_unmatched_emails st mu es).2) : h ∉ mu := by
  induction es generalizing st with
  | nil => simp [process_unmatched_emails] at hmem
  | cons e rest ih =>
    rw [process_unmatched_emails] at hmem
    by_cases hc : e.hash ∈ mu ∨ e.hash ∈ st.processed_email_hashes
    · rw [if_pos hc] at hmem
      exact ih _ hmem
    · rw [if_neg hc] at hmem
      rcases List.mem_cons.mp hmem with rfl | hmem'
      · exact fun hin => hc (Or.inl hin)
      · exact ih _ hmem'

theorem process_unmatched_covers (mu : List String) (es : List EmailRec)
    (st : LedgerSt) (e : EmailRec) (he : e ∈ es) (hnm : e.hash ∉ mu) :
    e.hash ∈ st.processed_email_hashes
      ∨ e.hash ∈ (process_unmatched_emails st mu es).2 := by
  induction es generalizing st with
  | nil => cases he
  | cons x rest ih =>
    rw [process_unmatched_emails]
    by_cases hc : x.hash ∈ mu ∨ x.hash ∈ st.processed_email_hashes
    · rw [if_pos hc]
      rcases List.mem_cons.mp he with rfl | he'
      · rcases hc with hc1 | hc2
        · exact absurd hc1 hnm
        · exact Or.inl hc2
      · exact ih _ he'
    · rw [if_neg hc]
      rcases List.mem_cons.mp he with rfl | he'
      · exact Or.inr (List.mem_cons_self _ _)
      · rcases ih { st with processed_email_hashes :=
            x.hash :: st.processed_email_hashes } he' with hin | hin
        · rcases List.mem_cons.mp hin with heq | hin'
          · exact Or.inr (heq ▸ List.mem_cons_self _ _)
          · exact Or.inl hin'
        · exact Or.inr (List.mem_cons_of_mem _ hin)

theorem process_unmatched_matched_const (mu : List String) (es : List EmailRec)
    (st : LedgerSt) :
    (process_unmatched_emails st mu es).1.matched = st.matched := by
  induction es generalizing st with
  | nil => rfl
  | cons e rest ih =>
    rw [process_unmatched_emails]
    by_cases hc : e.hash ∈ mu ∨ e.hash ∈ st.processed_email_hashes
    · rw [if_pos hc]
      exact ih _
    · rw [if_neg hc]
      exact ih _

/-- C1: Partition.  For every match oracle, every record-level schedule of
the per-file tasks, and every fetched corpus, after the full run of
`main()` (`mainRun`: all file tasks joined, then the unmatched pass) each
fetched email's hash lands in exactly one place: either some single file's
matched-email-hash set (and then it is not written to the unmatched
document), or the unmatched document (exactly when no file matched it);
and no two files' matched sets share a hash. -/
theorem C1_partition (mf : Row → Option EmailRec × ℚ) (schedule : List (Nat × Row))
    (emails : List EmailRec) (e : EmailRec) (he : e ∈ emails) :
    (((∃ i, (i, e.hash) ∈ (mainRun mf schedule emails).1.matched)
        ∧ e.hash ∉ (mainRun mf schedule emails).2)
      ∨ ((∀ i, (i, e.hash) ∉ (mainRun mf schedule emails).1.matched)
        ∧ e.hash ∈ (mainRun mf schedule emails).2)) ∧
    (∀ i j, (i, e.hash) ∈ (mainRun mf schedule emails).1.matched
      → (j, e.hash) ∈ (mainRun mf schedule emails).1.matched → i = j) := by
  have hinit1 : ∀ h, h ∈ LedgerSt.init.processed_email_hashes
      ↔ ∃ i, (i, h) ∈ LedgerSt.init.matched := by
    intro h
    constructor
    · intro hmem
      cases hmem
    · rintro ⟨i, hi⟩
      cases hi
  have hinit2 : ∀ i j h, (i, h) ∈ LedgerSt.init.matched
      → (j, h) ∈ LedgerSt.init.matched → i = j := by
    intro i j h hi
    cases hi
  rcases runFiles_inv mf schedule LedgerSt.init hinit1 hinit2 with ⟨h1, h2⟩
  have hfin : (mainRun mf schedule emails).1.matched
      = (runFiles mf LedgerSt.init schedule).matched :=
    process_unmatched_matched_const _ _ _
  have hout : (mainRun mf schedule emails).2
      = (process_unmatched_emails (runFiles mf LedgerSt.init schedule)
          ((runFiles mf LedgerSt.init schedule).matched.map Prod.snd) emails).2 := rfl
  constructor
  · by_cases hm : ∃ i, (i, e.hash) ∈ (runFiles mf LedgerSt.init schedule).matched
    · left
      refine ⟨hfin ▸ hm, ?_⟩
      intro hun
      have hnotmu := process_unmatched_not_in_mu
        ((runFiles mf LedgerSt.init schedule).matched.map Prod.snd) emails
        (runFiles mf LedgerSt.init schedule) e.hash (hout ▸ hun)
      rcases hm with ⟨i, hi⟩
      exact hnotmu (List.mem_map.mpr ⟨(i, e.hash), hi, rfl⟩)
    · right
      have hnmu : e.hash ∉ (runFiles mf LedgerSt.init schedule).matched.map Prod.snd := by
        intro hmu
        rcases List.mem_map.mp hmu with ⟨⟨i, h⟩, hmem, heq⟩
        exact hm ⟨i, by rwa [show h = e.hash from heq] at hmem⟩
      constructor
      · intro i hi
        exact hm ⟨i, hfin ▸ hi⟩
      · rcases process_unmatched_covers _ emails _ e he hnmu with hin | hin
        · exact absurd ((h1 e.hash).mp hin) hm
        · exact hout ▸ hin
  · intro i j hi hj
    exact h2 i j e.hash (hfin ▸ hi) (hfin ▸ hj)

/-- C1 witness: a one-file, one-record run whose record matches the single
fetched email — the hash lands in file 0's matched set and not in the
unmatched output. -/
theorem C1_partition_witness :
    (((∃ i, (i, emailHZ.hash) ∈ (mainRun matchToHZ [(0, recM1)] [emailHZ]).1.matched)
        ∧ emailHZ.hash ∉ (mainRun matchToHZ [(0, recM1)] [emailHZ]).2)
      ∨ ((∀ i, (i, emailHZ.hash) ∉ (mainRun matchToHZ [(0, recM1)] [emailHZ]).1.matched)
        ∧ emailHZ.hash ∈ (mainRun matchToHZ [(0, recM1)] [emailHZ]).2)) ∧
    (∀ i j, (i, emailHZ.hash) ∈ (mainRun matchToHZ [(0, recM1)] [emailHZ]).1.matched
      → (j, emailHZ.hash) ∈ (mainRun matchToHZ [(0, recM1)] [emailHZ]).1.matched → i = j) :=
  C1_partition matchToHZ [(0, recM1)] [emailHZ] emailHZ (by decide)

/-- C7 counterexample: in the executed pipeline (`main.py`), a record whose
accepted match's email hash is already in the email ledger contributes *no*
row — `main.py:117` skips the record with `continue` instead of reusing
cached attachment references (`main.py` has no attachment cache at all).
Two files each holding one record, both matching email `hZ` with score 1:
the first file writes one row, the second file writes zero rows, although
its record is an accepted match (`matchToHZ recM2 = (some emailHZ, 1)`). -/
theorem C7_cex :
    ((mainRunFiles matchToHZ ⟨[], [], ⟨[], [some "id1"], 0, []⟩⟩
        [[recM1], [recM2]]).2).map List.length = [1, 0] ∧
    matchToHZ recM2 = (some emailHZ, 1) := by
  refine ⟨by decide, by decide⟩

/-- C7 amended: the cached-reference reuse the claim describes is the
behavior of the *alternative* `google_process.py` pipeline.  There, two
records in two files both matching email `hZ` (accepted, unique-in-sheet)
each contribute a row; the first task uploads `hZ`'s single attachment
(exactly one backend attempt in the whole run) and the second reuses the
cached reference, so both rows carry the identical attachment link. -/
theorem C7_gp_reuse :
    (gpRunFiles matchToHZ (fun _ => true) ⟨[], [], [], ⟨[], [some "id1"], 0, []⟩⟩
        [[recM1], [recM2]]).2 = [[gpRowHZ], [gpRowHZ]] ∧
    (gpRunFiles matchToHZ (fun _ => true) ⟨[], [], [], ⟨[], [some "id1"], 0, []⟩⟩
        [[recM1], [recM2]]).1.up.attempts = 1 ∧
    (gpRunFiles matchToHZ (fun _ => true) ⟨[], [], [], ⟨[], [some "id1"], 0, []⟩⟩
        [[recM1], [recM2]]).1.email_attachments_cache
      = [("hZ", ["https://drive.google.com/file/d/id1/view?usp=sharing"])] := by
  refine ⟨by decide, by decide, by decide⟩
